import Mathlib

/-!
Shallow embedding of the threat-tracking and target-selection engine of
src/game/Combat/ThreatManager.cpp (CMaNGOS fork).

Modelling conventions:
* C++ `float` threat values are embedded as exact rationals (ℚ); the engine
  only adds, scales and compares threat, so the algebraic structure is the
  same and the 1.1/1.3 hysteresis thresholds are represented exactly.
* A `HostileReference` is a record of its observable fields; the opaque
  `ObjectGuid` of its target is a natural number.  Properties of the target
  unit that the engine queries (player flag, melee reachability, ...) are
  either stored per reference (as the sort comparator reads them per entry)
  or supplied by an environment of boolean predicates.
* The two `ThreatContainer`s of a `ThreatManager` are lists of references;
  `delete`d references simply leave the lists.
* Reference mutators fire status-change events synchronously into
  `ThreatManager::processThreatEvent`; the embedding inlines each handler at
  the point where the C++ code fires the event, so the net state after a
  mutating call matches the C++ state after the call returns.
* Null-pointer dereferences are modelled by `Option`: a function that would
  dereference a null `HostileReference*` returns `none`.
-/

/-- Hostile state rank of a reference.  The header enum is not part of the
sources; the spec fixes the order (NORMAL outranks SUPPRESSED) which is all
the comparator `>` in `ThreatContainer::update` consumes. -/
def STATE_SUPPRESSED : Nat := 0

/-- Hostile state rank for a normally hostile reference; see
`STATE_SUPPRESSED`. -/
def STATE_NORMAL : Nat := 1

/-- Client-sync countdown start value: `THREAT_UPDATE_INTERVAL`
(`2 * IN_MILLISECONDS`) from ThreatManager.cpp line 33. -/
def THREAT_UPDATE_INTERVAL : Nat := 2000

/-- One `HostileReference`: the tracked relationship between one attacker
(`target`, by guid) and the owning `ThreatManager`.  `taunt` is the
`TauntState` rank (only its `<`-order is consumed), `hostile` the
`HostileState` rank, `suppressToggle` the `m_suppresabilityToggle` flag,
`isPlayer` whether the target unit is a player (read by the sorter and the
victim selector). -/
structure HostileRef where
  target : Nat
  threat : ℚ
  fadeout : ℚ
  online : Bool
  taunt : Nat
  hostile : Nat
  suppressToggle : Bool
  isPlayer : Bool
  deriving DecidableEq

/-- HostileReference::addThreat (lines 113-128), reference-local part: clamp
the delta so the value never drops below zero, apply it, and if the
suppressability toggle is armed and the clamped delta is nonzero revert the
hostile state to `STATE_NORMAL` (via `SetHostileState`, which also clears the
toggle).  The fired events are handled at the manager level
(`applyAddThreat`). -/
def HostileReference.addThreat (r : HostileRef) (m : ℚ) : HostileRef :=
  let m2 := if m + r.threat < 0 then -r.threat else m
  let r1 : HostileRef := { r with threat := r.threat + m2 }
  if r.suppressToggle = true ∧ m2 ≠ 0 then
    { r1 with hostile := STATE_NORMAL, suppressToggle := false }
  else r1

/-- HostileReference::setFadeoutThreatReduction (lines 748-752): store the
fadeout amount, then route it through `addThreat`. -/
def HostileReference.setFadeoutThreatReduction (r : HostileRef) (value : ℚ) : HostileRef :=
  HostileReference.addThreat { r with fadeout := value } value

/-- HostileReference::resetFadeoutThreatReduction (lines 754-758): apply the
negated stored amount through `addThreat`, then zero the stored amount. -/
def HostileReference.resetFadeoutThreatReduction (r : HostileRef) : HostileRef :=
  { HostileReference.addThreat r (-r.fadeout) with fadeout := 0 }

/-- Owner-side predicates consumed by `ThreatContainer::selectNextVictim` and
`ThreatContainer::update` (attacker = the list owner). -/
structure Attacker where
  ignoringRanged : Bool
  isPlayerOwner : Bool
  meleeReach : Nat → Bool
  canAttack : Nat → Bool

/-- ThreatContainer::selectNextVictim, no-current-victim arm (line 417):
accept the first candidate that is melee-reachable when ranged targets are
suppressed, otherwise the first candidate outright. -/
def svNoVictim (atk : Attacker) : List HostileRef → Option HostileRef
  | [] => none
  | c :: rest =>
    if atk.ignoringRanged = false ∨ atk.meleeReach c.target = true then some c
    else svNoVictim atk rest

/-- ThreatContainer::selectNextVictim, scan with a current victim `v`
(lines 347-423).  `cvm` caches `currentVictimInMelee`.  Mirrors the branch
order of the C++ loop body exactly: current-victim check, taunt override,
player-over-nonplayer, ranged suppression (skip non-melee candidates; accept
a melee candidate when the victim is not in melee), hostile-state override,
the 110% accept-current rule, then the 130%/110%-in-melee overtake rule,
otherwise continue with the next candidate. -/
def svLoop (atk : Attacker) (v : HostileRef) (cvm : Bool) : List HostileRef → Option HostileRef
  | [] => none
  | c :: rest =>
    if c.target = v.target then
      (if atk.ignoringRanged = true ∧ cvm = false then svLoop atk v cvm rest else some c)
    else if v.taunt < c.taunt then some c
    else if c.isPlayer = true ∧ v.isPlayer = false then some c
    else if atk.ignoringRanged = true ∧ atk.meleeReach c.target = false then svLoop atk v cvm rest
    else if atk.ignoringRanged = true ∧ cvm = false then some c
    else if v.hostile < c.hostile then some c
    else if c.threat ≤ 11/10 * v.threat then some v
    else if 13/10 * v.threat < c.threat ∨ (11/10 * v.threat < c.threat ∧ atk.meleeReach c.target = true) then some c
    else svLoop atk v cvm rest

/-- ThreatContainer::selectNextVictim (lines 335-428).  With a current victim
the scan runs `svLoop` (with `currentVictimInMelee` precomputed exactly as in
lines 340-342); without one it runs `svNoVictim`. -/
def ThreatContainer.selectNextVictim (atk : Attacker) (l : List HostileRef) (cv : Option HostileRef) : Option HostileRef :=
  match cv with
  | some v => svLoop atk v (if atk.ignoringRanged then atk.meleeReach v.target else true) l
  | none => svNoVictim atk l

/-- Comparator of `ThreatContainer::update` (lines 296-326): `true` when
`lhs` sorts strictly before `rhs`.  Dimension order: (if the owner is a
player) player targets first then attackable targets; taunt rank; (if
forced) melee reachability; hostile state; threat, all descending. -/
def threatSortCmp (isPlayer force : Bool) (atk : Attacker) (lhs rhs : HostileRef) : Bool :=
  if isPlayer = true ∧ lhs.isPlayer = true ∧ rhs.isPlayer = false then true
  else if isPlayer = true ∧ lhs.isPlayer = false ∧ rhs.isPlayer = true then false
  else if isPlayer = true ∧ atk.canAttack lhs.target = true ∧ atk.canAttack rhs.target = false then true
  else if isPlayer = true ∧ atk.canAttack lhs.target = false ∧ atk.canAttack rhs.target = true then false
  else if lhs.taunt ≠ rhs.taunt then decide (rhs.taunt < lhs.taunt)
  else if force = true ∧ atk.meleeReach lhs.target ≠ atk.meleeReach rhs.target then
    (atk.meleeReach lhs.target && !atk.meleeReach rhs.target)
  else if lhs.hostile ≠ rhs.hostile then decide (rhs.hostile < lhs.hostile)
  else decide (rhs.threat < lhs.threat)

/-- Postcondition of `std::list::sort` with `threatSortCmp`: no element
strictly precedes (by the comparator) an element placed before it. -/
def SortedByThreat (isPlayer force : Bool) (atk : Attacker) (l : List HostileRef) : Prop :=
  l.Pairwise (fun a b => threatSortCmp isPlayer force atk b a = false)

/-- ThreatContainer::getReferenceByTarget (lines 228-240): linear scan by
target guid. -/
def ThreatContainer.getReferenceByTarget (l : List HostileRef) (tid : Nat) : Option HostileRef :=
  l.find? (fun r => r.target == tid)

/-- ThreatContainer::addReference.  Modelled from the spec: the member body
is in the missing header; the spec only says the reference is added to the
set, so the insertion position (here: the back) is unspecified and no proved
statement depends on it. -/
def ThreatContainer.addReference (l : List HostileRef) (r : HostileRef) : List HostileRef :=
  l ++ [r]

/-- ThreatContainer::remove.  Modelled from the spec: the member body is in
the missing header; it removes the given reference (identified here by its
target guid, which is unique per container) from the list. -/
def ThreatContainer.removeRef (l : List HostileRef) (tid : Nat) : List HostileRef :=
  l.filter (fun r => r.target != tid)

/-- ThreatContainer::update (lines 292-329): sort when dirty, forced or
player-owned and more than one entry; the comparator is `threatSortCmp`.
The concrete sorting algorithm of `std::list::sort` is irrelevant to the
stated theorems; any comparator-driven permutation is faithful. -/
def ThreatContainer.update (atk : Attacker) (force isPlayer dirty : Bool) (l : List HostileRef) : List HostileRef :=
  if (dirty = true ∨ force = true ∨ isPlayer = true) ∧ 1 < l.length then
    List.insertionSort (fun a b => threatSortCmp isPlayer force atk a b = true) l
  else l

/-- State of one `ThreatManager`: the reachable (online) container, the
unreachable (offline) container, the current victim (by target guid,
`none` = null pointer), the reachable container's dirty flag and the
client-sync countdown `iUpdateTimer`. -/
structure ManagerState where
  reachable : List HostileRef
  unreachable : List HostileRef
  currentVictim : Option Nat
  dirty : Bool
  updateTimer : Nat
  deriving DecidableEq

/-- Owner-side predicate consumed by `ThreatManager::ClearSuppressed`. -/
structure OwnerEnv where
  isSuppressedTarget : Nat → Bool

/-- Lookup mirroring how event handlers reach the fired reference: the
reachable container first, then the unreachable one. -/
def findRef (s : ManagerState) (tid : Nat) : Option HostileRef :=
  match ThreatContainer.getReferenceByTarget s.reachable tid with
  | some r => some r
  | none => ThreatContainer.getReferenceByTarget s.unreachable tid

/-- Update in place the reference with guid `tid` inside the list. -/
def mapRefList (l : List HostileRef) (tid : Nat) (f : HostileRef → HostileRef) : List HostileRef :=
  l.map (fun r => if r.target = tid then f r else r)

/-- Update in place the single reference object with guid `tid`, wherever it
lives: in the reachable container if present there, otherwise in the
unreachable one (matching C++ pointer mutation of the found reference). -/
def mapRefM (s : ManagerState) (tid : Nat) (f : HostileRef → HostileRef) : ManagerState :=
  if s.reachable.any (fun r => r.target == tid) then
    { s with reachable := mapRefList s.reachable tid f }
  else
    { s with unreachable := mapRefList s.unreachable tid f }

/-- ThreatManager::processThreatEvent, UEV_THREAT_REF_THREAT_CHANGE case
(lines 647-651): mark dirty when the current victim lost threat or a
non-victim gained threat. -/
def processThreatChangeEvent (s : ManagerState) (tid : Nat) (fval : ℚ) : ManagerState :=
  if (s.currentVictim = some tid ∧ fval < 0) ∨ (s.currentVictim ≠ some tid ∧ 0 < fval) then
    { s with dirty := true }
  else s

/-- ThreatManager::ClearSuppressed (lines 716-721): every reachable reference
other than `exceptTid` that is still `STATE_SUPPRESSED` but whose suppression
condition no longer holds is reset to `STATE_NORMAL` (through
`SetHostileState`, which clears its toggle).  The nested notifications such a
reset fires only repeat this same pass, so the single pass is the net
effect. -/
def ClearSuppressed (env : OwnerEnv) (s : ManagerState) (exceptTid : Nat) : ManagerState :=
  { s with reachable := s.reachable.map (fun r =>
      if r.hostile = STATE_SUPPRESSED ∧ r.target ≠ exceptTid ∧ env.isSuppressedTarget r.target = false then
        { r with hostile := STATE_NORMAL, suppressToggle := false }
      else r) }

/-- ThreatManager::processThreatEvent, UEV_THREAT_REF_SUPPRESSED_STATUS case
(lines 694-698): clear other suppressed references, then mark dirty. -/
def processSuppressedEvent (env : OwnerEnv) (s : ManagerState) (tid : Nat) : ManagerState :=
  { ClearSuppressed env s tid with dirty := true }

/-- Dirty check of the online arm of the ONLINE_STATUS handler (line 671):
the reference came online with threat above 110% of the current victim's. -/
def onlineDirtyCheck (s : ManagerState) (r : HostileRef) : Bool :=
  match s.currentVictim with
  | none => false
  | some vt =>
    match findRef s vt with
    | none => false
    | some vr => decide (11/10 * vr.threat < r.threat)

/-- ThreatManager::processThreatEvent, UEV_THREAT_REF_ONLINE_STATUS case
(lines 652-675).  Offline transition: clear the current victim if it was this
reference (marking dirty), remove the reference from the reachable container
and add it to the unreachable one.  Online transition: possibly mark dirty,
add to the reachable container, remove from the unreachable one. -/
def processOnlineEvent (s : ManagerState) (tid : Nat) : ManagerState :=
  match findRef s tid with
  | none => s
  | some r =>
    if r.online = false then
      let s1 := if s.currentVictim = some tid then { s with currentVictim := none, dirty := true } else s
      { s1 with reachable := ThreatContainer.removeRef s1.reachable tid,
                unreachable := ThreatContainer.addReference s1.unreachable r }
    else
      { s with dirty := (s.dirty || onlineDirtyCheck s r),
               reachable := ThreatContainer.addReference s.reachable r,
               unreachable := ThreatContainer.removeRef s.unreachable tid }

/-- HostileReference::setOnlineOfflineState (lines 156-165): no-op unless the
flag changes; on change update the flag and fire the ONLINE_STATUS event,
which the owning manager handles synchronously. -/
def setOnlineOfflineState (s : ManagerState) (tid : Nat) (b : Bool) : ManagerState :=
  match findRef s tid with
  | none => s
  | some r =>
    if r.online = b then s
    else processOnlineEvent (mapRefM s tid (fun x => { x with online := b })) tid

/-- HostileReference::removeReference (lines 196-202) together with the
UEV_THREAT_REF_REMOVE_FROM_LIST handler (lines 677-693): clear the current
victim if it was this reference (marking dirty), then drop the reference from
the container selected by its online flag; the caller then destroys it. -/
def processRemoveEvent (s : ManagerState) (tid : Nat) : ManagerState :=
  match findRef s tid with
  | none => s
  | some r =>
    let s1 := if s.currentVictim = some tid then { s with currentVictim := none, dirty := true } else s
    if r.online = true then { s1 with reachable := ThreatContainer.removeRef s1.reachable tid }
    else { s1 with unreachable := ThreatContainer.removeRef s1.unreachable tid }

/-- HostileReference::addThreat (lines 113-128) at manager level: clamp the
delta against the found reference's value, apply it, run `SetHostileState`
(with its SUPPRESSED_STATUS notification) when the armed toggle is hit by a
nonzero delta, then fire THREAT_CHANGE for a nonzero delta. -/
def applyAddThreat (env : OwnerEnv) (s : ManagerState) (tid : Nat) (m : ℚ) : ManagerState :=
  match findRef s tid with
  | none => s
  | some r =>
    let m2 := if m + r.threat < 0 then -r.threat else m
    let s1 := mapRefM s tid (fun x => { x with threat := x.threat + m2 })
    let s2 :=
      if r.suppressToggle = true ∧ m2 ≠ 0 then
        (if r.hostile ≠ STATE_NORMAL then
          processSuppressedEvent env (mapRefM s1 tid (fun x => { x with hostile := STATE_NORMAL, suppressToggle := false })) tid
         else mapRefM s1 tid (fun x => { x with suppressToggle := false }))
      else s1
    if m2 ≠ 0 then processThreatChangeEvent s2 tid m2 else s2

/-- HostileReference::addThreatPercent.  Modelled from the spec: the member
body is in the missing header; the spec says `modifyPercent` scales the value
by `(1 + pct/100)`, i.e. the reference adds `threat * pct / 100` through
`addThreat`. -/
def applyAddThreatPercent (env : OwnerEnv) (s : ManagerState) (tid : Nat) (pct : Int) : ManagerState :=
  match findRef s tid with
  | none => s
  | some r => applyAddThreat env s tid (r.threat * (pct : ℚ) / 100)

/-- ThreatContainer::modifyThreatPercent (lines 255-267), reached through the
ThreatManager forwarder (lines 519-522) which targets the reachable
container: if the reference is found there, remove and destroy it when
`pct < -100`, otherwise scale it via `addThreatPercent`. -/
def ThreatManager.modifyThreatPercent (env : OwnerEnv) (s : ManagerState) (tid : Nat) (pct : Int) : ManagerState :=
  match ThreatContainer.getReferenceByTarget s.reachable tid with
  | none => s
  | some _ =>
    if pct < -100 then processRemoveEvent s tid
    else applyAddThreatPercent env s tid pct

/-- While-loop of ThreatContainer::modifyAllThreatPercent for `pct < -100`
(lines 276-281): repeatedly remove and destroy the front reference of the
reachable list until it is empty.  The fuel argument bounds the iterations;
each iteration of the C++ loop shrinks the list (every reachable reference is
online), so fuel `reachable.length` reproduces the loop exactly. -/
def removeAllLoop : Nat → ManagerState → ManagerState
  | 0, s => s
  | Nat.succ n, s =>
    match s.reachable with
    | [] => s
    | r :: _ => removeAllLoop n (processRemoveEvent s r.target)

/-- ThreatContainer::modifyAllThreatPercent (lines 272-288), reached through
the ThreatManager forwarder (lines 524-527): for `pct < -100` remove and
destroy every reachable reference, otherwise apply `addThreatPercent` to each
reference of the reachable list in order. -/
def ThreatManager.modifyAllThreatPercent (env : OwnerEnv) (s : ManagerState) (pct : Int) : ManagerState :=
  if pct < -100 then removeAllLoop s.reachable.length s
  else (s.reachable.map (fun r => r.target)).foldl (fun st tid => applyAddThreatPercent env st tid pct) s

/-- ThreatManager::getThreat (lines 546-558).  Returns `none` where the C++
code dereferences a null pointer: when the target is in neither container and
`alsoSearchOfflineList` is set, the final `else if` branch calls
`getThreat()` on the null result of a repeated offline-container lookup. -/
def ThreatManager.getThreat (s : ManagerState) (tid : Nat) (alsoSearchOfflineList : Bool) : Option ℚ :=
  let r0 := ThreatContainer.getReferenceByTarget s.reachable tid
  let r1 := if r0 = none ∧ alsoSearchOfflineList = true then ThreatContainer.getReferenceByTarget s.unreachable tid else r0
  match r1 with
  | some r => some r.threat
  | none =>
    if alsoSearchOfflineList = true then
      (ThreatContainer.getReferenceByTarget s.unreachable tid).map (fun r => r.threat)
    else some 0

/-- ThreatManager::isNeedUpdateToClient (lines 702-714): `false` when the
reachable list is empty (`isThreatListEmpty`, whose header body the spec
describes as emptiness of the reachable set); `true`, resetting the
countdown, when the elapsed time consumes it; otherwise decrement. -/
def ThreatManager.isNeedUpdateToClient (s : ManagerState) (t : Nat) : Bool × ManagerState :=
  if s.reachable.isEmpty then (false, s)
  else if s.updateTimer ≤ t then (true, { s with updateTimer := THREAT_UPDATE_INTERVAL })
  else (false, { s with updateTimer := s.updateTimer - t })

/-- ThreatManager::UpdateContainers (lines 531-534): update (possibly sort)
the reachable container with force = owner ignores ranged targets and
isPlayer = owner is a player; the dirty flag is cleared afterwards. -/
def updateContainersM (atk : Attacker) (s : ManagerState) : ManagerState :=
  { s with reachable := ThreatContainer.update atk atk.ignoringRanged atk.isPlayerOwner s.dirty s.reachable,
           dirty := false }

/-- Resolve the stored current victim (a guid, standing for the C++
`iCurrentVictim` pointer) to its reference in the reachable container. -/
def currentVictimRef (s : ManagerState) : Option HostileRef :=
  match s.currentVictim with
  | none => none
  | some vt => ThreatContainer.getReferenceByTarget s.reachable vt

/-- ThreatManager::getHostileTarget (lines 536-542): update containers, run
victim selection against the reachable list with the stored current victim,
and store the selection result as the new current victim. -/
def getHostileTargetM (atk : Attacker) (s : ManagerState) : ManagerState :=
  let s1 := updateContainersM atk s
  let nv := ThreatContainer.selectNextVictim atk s1.reachable (currentVictimRef s1)
  { s1 with currentVictim := nv.map (fun r => r.target) }

/-- ThreatManager::setCurrentVictimByTarget (lines 627-633): no-op when the
target already is the current victim; otherwise adopt the reachable
reference for the target, if any. -/
def setCurrentVictimByTarget (s : ManagerState) (tid : Nat) : ManagerState :=
  if s.currentVictim = some tid then s
  else
    match ThreatContainer.getReferenceByTarget s.reachable tid with
    | some r => { s with currentVictim := some r.target }
    | none => s

/-- ThreatManager::clearReferences (lines 449-455): drop every reference from
both containers (directly, without events), null the current victim and
reset the countdown. -/
def clearReferencesM (s : ManagerState) : ManagerState :=
  { reachable := [], unreachable := [], currentVictim := none,
    dirty := s.dirty, updateTimer := THREAT_UPDATE_INTERVAL }

/-- HostileReference::SetHostileState (lines 180-190) at manager level: on a
real change set the new state and fire the SUPPRESSED_STATUS event; the
toggle is cleared in every case. -/
def setHostileStateM (env : OwnerEnv) (s : ManagerState) (tid : Nat) (st : Nat) : ManagerState :=
  match findRef s tid with
  | none => s
  | some r =>
    if r.hostile ≠ st then
      processSuppressedEvent env (mapRefM s tid (fun x => { x with hostile := st, suppressToggle := false })) tid
    else mapRefM s tid (fun x => { x with suppressToggle := false })

/-- Fresh reference as built by the HostileReference constructor
(lines 68-78): given threat (zero on the creation path), online, no taunt,
normal hostile state, disarmed toggle. -/
def newHostileRef (tid : Nat) (p : Bool) : HostileRef :=
  { target := tid, threat := 0, fadeout := 0, online := true, taunt := 0,
    hostile := STATE_NORMAL, suppressToggle := false, isPlayer := p }

/-- Creation path of ThreatManager::addThreatDirectly (lines 502-514): insert
a zero-threat reference into the reachable container, apply the real delta
through `addThreat`, and force the reference offline when the owner treats
the target as offline or the target is a game master.  The aggro-linking
notification is external; the pet-propagation call is a further `addThreat`
invocation and is covered by the step relation below. -/
def newReferenceM (env : OwnerEnv) (s : ManagerState) (tid : Nat) (p : Bool) (threat : ℚ) (forceOffline : Bool) : ManagerState :=
  let s1 := { s with reachable := ThreatContainer.addReference s.reachable (newHostileRef tid p) }
  let s2 := applyAddThreat env s1 tid threat
  if forceOffline then setOnlineOfflineState s2 tid false else s2

/-- External inputs of ThreatCalcHelper::CalcThreat for a fixed hated/hating
pair: the no-threat state, the hating side being a player, the assist-only
restriction, and the three threat modifiers (spell mod, critical multiplier,
school multiplier) supplied by the aura system. -/
structure CalcEnv where
  noThreatState : Bool
  hatingIsPlayer : Bool
  supportThreatOnly : Bool
  hasSpellModOwner : Bool
  spellModThreat : ℚ → ℚ
  critMult : ℚ
  totalThreatMod : ℚ → ℚ

/-- ThreatCalcHelper::CalcThreat (lines 36-62): zero for zero input, for a
no-threat target, for a player source, or for a non-assist call against an
assist-only target; otherwise apply the spell threat modifier, the critical
multiplier (spell context and crit only) and the school threat modifier in
that order. -/
def ThreatCalcHelper.CalcThreat (e : CalcEnv) (threat : ℚ) (crit hasSpell assist : Bool) : ℚ :=
  if threat = 0 then 0
  else if e.noThreatState = true then 0
  else if e.hatingIsPlayer = true then 0
  else if assist = false ∧ e.supportThreatOnly = true then 0
  else
    let t1 := if hasSpell = true ∧ e.hasSpellModOwner = true then e.spellModThreat threat else threat
    let t2 := if hasSpell = true ∧ crit = true then t1 * e.critMult else t1
    e.totalThreatMod t2

/-- External inputs of ThreatManager::addThreat: the owner identity and
liveness, the misdirection-ignore flag, and per-unit liveness, game-master
and threat-redirection queries. -/
structure MgrEnv where
  ownerId : Nat
  ownerAlive : Bool
  ignoringMisdirection : Bool
  alive : Nat → Bool
  isGameMaster : Nat → Bool
  redirectTarget : Nat → Option Nat

/-- ThreatManager::addThreat (lines 459-493) as the sequence of
`addThreatDirectly(target, amount, suppressNew)` invocations it performs:
empty for the self / game-master / dead guard no-ops; with an applicable
redirection the full calculated amount goes to the redirect target followed
by a zero amount to the original target; otherwise the calculated amount
goes to the original target. -/
def ThreatManager.addThreatCalls (ce : CalcEnv) (me : MgrEnv) (victim : Nat) (threat : ℚ) (crit hasSpell assist hasNoThreatAttr : Bool) : List (Nat × ℚ × Bool) :=
  if victim = me.ownerId then []
  else if me.isGameMaster victim = true then []
  else if me.alive victim = false ∨ me.ownerAlive = false then []
  else
    let ct := ThreatCalcHelper.CalcThreat ce threat crit hasSpell assist
    let redirected :=
      if 0 < ct ∧ me.ignoringMisdirection = false then
        match me.redirectTarget victim with
        | some rt => if rt ≠ me.ownerId ∧ me.alive rt = true then some rt else none
        | none => none
      else none
    match redirected with
    | some rt => [(rt, ct, false), (victim, 0, hasNoThreatAttr)]
    | none => [(victim, ct, hasNoThreatAttr)]

/-- Transition relation of one ThreatManager: every state-mutating operation
of ThreatManager.cpp, each as the composite effect (including the
synchronously handled events) its C++ counterpart has. -/
inductive MStep (env : OwnerEnv) (atk : Attacker) : ManagerState → ManagerState → Prop where
  | addThreatStep (s : ManagerState) (tid : Nat) (m : ℚ) :
      MStep env atk s (applyAddThreat env s tid m)
  | setOnlineStep (s : ManagerState) (tid : Nat) (b : Bool) :
      MStep env atk s (setOnlineOfflineState s tid b)
  | removeStep (s : ManagerState) (tid : Nat) :
      MStep env atk s (processRemoveEvent s tid)
  | setHostileStep (s : ManagerState) (tid st : Nat) :
      MStep env atk s (setHostileStateM env s tid st)
  | modifyPercentStep (s : ManagerState) (tid : Nat) (pct : Int) :
      MStep env atk s (ThreatManager.modifyThreatPercent env s tid pct)
  | modifyAllStep (s : ManagerState) (pct : Int) :
      MStep env atk s (ThreatManager.modifyAllThreatPercent env s pct)
  | updateStep (s : ManagerState) :
      MStep env atk s (updateContainersM atk s)
  | selectStep (s : ManagerState) :
      MStep env atk s (getHostileTargetM atk s)
  | setVictimStep (s : ManagerState) (tid : Nat) :
      MStep env atk s (setCurrentVictimByTarget s tid)
  | clearStep (s : ManagerState) :
      MStep env atk s (clearReferencesM s)
  | newRefStep (s : ManagerState) (tid : Nat) (p : Bool) (thr : ℚ) (off : Bool) :
      findRef s tid = none → MStep env atk s (newReferenceM env s tid p thr off)
  | tickStep (s : ManagerState) (t : Nat) :
      MStep env atk s (ThreatManager.isNeedUpdateToClient s t).2

/-- Victim-membership invariant: a non-null current victim names a reference
of the reachable container. -/
def victimInv (s : ManagerState) : Prop :=
  ∀ t, s.currentVictim = some t → t ∈ s.reachable.map HostileRef.target

/-- Concrete fixture: a plain online reference with threat 50. -/
def refW : HostileRef :=
  { target := 1, threat := 50, fadeout := 0, online := true, taunt := 0,
    hostile := STATE_NORMAL, suppressToggle := false, isPlayer := false }

/-- Concrete fixture for the fadeout clamp: threat 10 and no stored fadeout. -/
def refC4 : HostileRef := { refW with target := 3, threat := 10 }

/-- Concrete fixture: current victim with threat 100. -/
def vW : HostileRef := { refW with target := 1, threat := 100 }

/-- Concrete fixture: candidate with threat 135 (135% of `vW`). -/
def cW : HostileRef := { refW with target := 2, threat := 135 }

/-- Concrete fixture: low-threat candidate with taunt rank 5. -/
def cT : HostileRef := { refW with target := 2, threat := 10, taunt := 5 }

/-- Concrete fixture attacker: not melee-restricted, not a player, reaches
and can attack everything. -/
def atkW : Attacker :=
  { ignoringRanged := false, isPlayerOwner := false,
    meleeReach := fun _ => true, canAttack := fun _ => true }

/-- Concrete fixture owner environment: nothing is owner-suppressed. -/
def envW : OwnerEnv := { isSuppressedTarget := fun _ => false }

/-- Concrete fixture: a manager tracking nothing. -/
def emptyMgrState : ManagerState :=
  { reachable := [], unreachable := [], currentVictim := none, dirty := false,
    updateTimer := THREAT_UPDATE_INTERVAL }

/-- Concrete fixture: a manager tracking exactly `refW`. -/
def oneRefState : ManagerState := { emptyMgrState with reachable := [refW] }

/-- Concrete fixture: a manager tracking exactly `refW`, which is also the
current victim. -/
def victimRefState : ManagerState :=
  { emptyMgrState with reachable := [refW], currentVictim := some 1 }

/-- Concrete fixture calculator environment: no zeroing condition applies and
every modifier is the identity. -/
def calcW : CalcEnv :=
  { noThreatState := false, hatingIsPlayer := false, supportThreatOnly := false,
    hasSpellModOwner := false, spellModThreat := fun x => x, critMult := 1,
    totalThreatMod := fun x => x }

/-- Concrete fixture manager environment: owner 0 is alive, everything is
alive, nobody is a game master, and unit 2 redirects its threat to unit 9. -/
def mgrEnvW : MgrEnv :=
  { ownerId := 0, ownerAlive := true, ignoringMisdirection := false,
    alive := fun _ => true, isGameMaster := fun _ => false,
    redirectTarget := fun v => if v = 2 then some 9 else none }

/-! Reference-level lemmas about `HostileReference.addThreat`. -/

theorem addThreat_threat_eq (r : HostileRef) (m : ℚ) :
    (HostileReference.addThreat r m).threat
      = r.threat + (if m + r.threat < 0 then -r.threat else m) := by
  by_cases hcl : m + r.threat < 0 <;>
    · simp only [HostileReference.addThreat, hcl, if_true, if_false, ite_true, ite_false]
      split <;> rfl

theorem addThreat_fadeout_eq (r : HostileRef) (m : ℚ) :
    (HostileReference.addThreat r m).fadeout = r.fadeout := by
  simp only [HostileReference.addThreat]
  split <;> split <;> rfl

theorem setFadeout_threat_eq (r : HostileRef) (v : ℚ) :
    (HostileReference.setFadeoutThreatReduction r v).threat
      = r.threat + (if v + r.threat < 0 then -r.threat else v) := by
  have h : (HostileReference.setFadeoutThreatReduction r v).threat
      = (HostileReference.addThreat { r with fadeout := v } v).threat := rfl
  rw [h, addThreat_threat_eq]

theorem setFadeout_fadeout_eq (r : HostileRef) (v : ℚ) :
    (HostileReference.setFadeoutThreatReduction r v).fadeout = v := by
  have h : (HostileReference.setFadeoutThreatReduction r v).fadeout
      = (HostileReference.addThreat { r with fadeout := v } v).fadeout := rfl
  rw [h, addThreat_fadeout_eq]

theorem resetFadeout_threat_eq (r : HostileRef) :
    (HostileReference.resetFadeoutThreatReduction r).threat
      = r.threat + (if -r.fadeout + r.threat < 0 then -r.threat else -r.fadeout) := by
  have h : (HostileReference.resetFadeoutThreatReduction r).threat
      = (HostileReference.addThreat r (-r.fadeout)).threat := rfl
  rw [h, addThreat_threat_eq]

theorem addThreat_nonneg_step (r : HostileRef) (m : ℚ) (h : 0 ≤ r.threat) :
    0 ≤ (HostileReference.addThreat r m).threat := by
  rw [addThreat_threat_eq]
  split
  · linarith
  · next h2 =>
      push_neg at h2
      linarith

/-- C6: every `addThreat` clamps a delta that would push the stored value
below zero to exactly the negated value, so over any sequence of deltas a
value that starts nonnegative stays nonnegative, and a clamped call lands
exactly on zero. -/
theorem addThreat_nonneg_invariant :
    (∀ (r : HostileRef) (ds : List ℚ), 0 ≤ r.threat →
        0 ≤ (ds.foldl HostileReference.addThreat r).threat) ∧
    (∀ (r : HostileRef) (d : ℚ), 0 ≤ r.threat → d + r.threat < 0 →
        (HostileReference.addThreat r d).threat = 0) := by
  constructor
  · intro r ds
    induction ds generalizing r with
    | nil => intro h; simpa using h
    | cons d t ih =>
        intro h
        exact ih _ (addThreat_nonneg_step r d h)
  · intro r d h hlt
    rw [addThreat_threat_eq, if_pos hlt]
    ring

theorem addThreat_nonneg_invariant_witness :
    0 ≤ (([-30, 10] : List ℚ).foldl HostileReference.addThreat refW).threat ∧
    (HostileReference.addThreat refW (-60)).threat = 0 :=
  ⟨addThreat_nonneg_invariant.1 refW [-30, 10] (by norm_num [refW]),
   addThreat_nonneg_invariant.2 refW (-60) (by norm_num [refW]) (by norm_num [refW])⟩

/-- C4 counterexample: with threat 10, `setFadeoutThreatReduction (-20)` is
clamped by `addThreat` (the value changes by -10, not by -20), and the
set/reset pair then lands on 20 instead of restoring 10 — with no other
deltas in between at all. -/
theorem fadeout_clamp_counterexample :
    (HostileReference.setFadeoutThreatReduction refC4 (-20)).threat ≠ refC4.threat + (-20) ∧
    (HostileReference.resetFadeoutThreatReduction
        (HostileReference.setFadeoutThreatReduction refC4 (-20))).threat ≠ refC4.threat := by
  constructor
  · rw [setFadeout_threat_eq]
    norm_num [refC4, refW]
  · rw [resetFadeout_threat_eq, setFadeout_threat_eq, setFadeout_fadeout_eq]
    norm_num [refC4, refW]

/-- C4 amended: the fadeout pair routes both deltas through `addThreat`,
which floors the value at zero; whenever no clamp triggers (the threat value
stays nonnegative at each application) the set call changes the value by
exactly `+v`, the reset call by exactly the negated stored amount, and the
pair restores the value an interleaved unclamped delta would have produced
without the fadeout. -/
theorem fadeout_exact_when_unclamped :
    (∀ (r : HostileRef) (v : ℚ), 0 ≤ r.threat + v →
        (HostileReference.setFadeoutThreatReduction r v).threat = r.threat + v ∧
        (HostileReference.setFadeoutThreatReduction r v).fadeout = v) ∧
    (∀ r : HostileRef, 0 ≤ r.threat - r.fadeout →
        (HostileReference.resetFadeoutThreatReduction r).threat = r.threat - r.fadeout ∧
        (HostileReference.resetFadeoutThreatReduction r).fadeout = 0) ∧
    (∀ (r : HostileRef) (v d : ℚ), 0 ≤ r.threat + v → 0 ≤ r.threat + v + d → 0 ≤ r.threat + d →
        (HostileReference.resetFadeoutThreatReduction
            (HostileReference.addThreat (HostileReference.setFadeoutThreatReduction r v) d)).threat
          = (HostileReference.addThreat r d).threat) := by
  refine ⟨?_, ?_, ?_⟩
  · intro r v h1
    refine ⟨?_, setFadeout_fadeout_eq r v⟩
    rw [setFadeout_threat_eq, if_neg (by linarith)]
  · intro r h1
    constructor
    · rw [resetFadeout_threat_eq, if_neg (by linarith)]
      ring
    · rfl
  · intro r v d h1 h2 h3
    have e1 : (HostileReference.setFadeoutThreatReduction r v).threat = r.threat + v := by
      rw [setFadeout_threat_eq, if_neg (by linarith)]
    have e1f : (HostileReference.setFadeoutThreatReduction r v).fadeout = v :=
      setFadeout_fadeout_eq r v
    have e2 : (HostileReference.addThreat (HostileReference.setFadeoutThreatReduction r v) d).threat
        = r.threat + v + d := by
      rw [addThreat_threat_eq, e1, if_neg (by linarith)]
    have e2f : (HostileReference.addThreat (HostileReference.setFadeoutThreatReduction r v) d).fadeout
        = v := by
      rw [addThreat_fadeout_eq, e1f]
    have e4 : (HostileReference.addThreat r d).threat = r.threat + d := by
      rw [addThreat_threat_eq, if_neg (by linarith)]
    rw [resetFadeout_threat_eq, e2, e2f, if_neg (by linarith), e4]
    ring

theorem fadeout_exact_when_unclamped_witness :
    (HostileReference.setFadeoutThreatReduction refW (-30)).threat = refW.threat + (-30) ∧
    (HostileReference.resetFadeoutThreatReduction
        (HostileReference.addThreat (HostileReference.setFadeoutThreatReduction refW (-30)) 5)).threat
      = (HostileReference.addThreat refW 5).threat :=
  ⟨(fadeout_exact_when_unclamped.1 refW (-30) (by norm_num [refW])).1,
   fadeout_exact_when_unclamped.2.2 refW (-30) 5 (by norm_num [refW]) (by norm_num [refW])
     (by norm_num [refW])⟩

/-! Victim-selection lemmas. -/

/-- C1: at a scan position with a current victim of equal taunt rank and
hostile state (player-preference and ranged-suppression branches not
applying), the selector keeps the current victim at up to 110% threat
(stopping the scan), switches above 130% or above 110% with the candidate in
melee reach, and otherwise continues with the rest of the list.  The
nonnegativity of the victim's threat is the stored-value invariant of
`HostileReference::addThreat`. -/
theorem selectNextVictim_hysteresis :
    ∀ (atk : Attacker) (v c : HostileRef) (rest : List HostileRef) (cvm : Bool),
      atk.ignoringRanged = false → 0 ≤ v.threat →
      c.target ≠ v.target → c.taunt = v.taunt → c.hostile = v.hostile →
      ¬(c.isPlayer = true ∧ v.isPlayer = false) →
      ((c.threat ≤ 11/10 * v.threat → svLoop atk v cvm (c :: rest) = some v) ∧
       (13/10 * v.threat < c.threat ∨ (11/10 * v.threat < c.threat ∧ atk.meleeReach c.target = true) →
          svLoop atk v cvm (c :: rest) = some c) ∧
       (11/10 * v.threat < c.threat → c.threat ≤ 13/10 * v.threat → atk.meleeReach c.target = false →
          svLoop atk v cvm (c :: rest) = svLoop atk v cvm rest)) := by
  intro atk v c rest cvm hsr hnn htgt htaunt hhost hplayer
  have h1 : ¬(v.taunt < c.taunt) := by omega
  have h2 : ¬(atk.ignoringRanged = true ∧ atk.meleeReach c.target = false) := by
    simp [hsr]
  have h3 : ¬(atk.ignoringRanged = true ∧ cvm = false) := by
    simp [hsr]
  have h4 : ¬(v.hostile < c.hostile) := by omega
  refine ⟨?_, ?_, ?_⟩
  · intro hth
    simp only [svLoop]
    rw [if_neg htgt, if_neg h1, if_neg hplayer, if_neg h2, if_neg h3, if_neg h4, if_pos hth]
  · intro hth
    have hnot : ¬(c.threat ≤ 11/10 * v.threat) := by
      rcases hth with h | ⟨h, _⟩ <;> · push_neg; linarith
    simp only [svLoop]
    rw [if_neg htgt, if_neg h1, if_neg hplayer, if_neg h2, if_neg h3, if_neg h4, if_neg hnot,
      if_pos hth]
  · intro ha hb hc
    have hnot : ¬(c.threat ≤ 11/10 * v.threat) := by push_neg; exact ha
    have hnot2 : ¬(13/10 * v.threat < c.threat ∨
        (11/10 * v.threat < c.threat ∧ atk.meleeReach c.target = true)) := by
      rintro (h | ⟨-, hm⟩)
      · exact absurd h (not_lt.mpr hb)
      · rw [hc] at hm
        simp at hm
    simp only [svLoop]
    rw [if_neg htgt, if_neg h1, if_neg hplayer, if_neg h2, if_neg h3, if_neg h4, if_neg hnot,
      if_neg hnot2]

theorem selectNextVictim_hysteresis_witness :
    svLoop atkW vW true [cW] = some cW :=
  (selectNextVictim_hysteresis atkW vW cW [] true rfl (by norm_num [vW, refW]) (by decide)
      (by decide) (by decide) (by decide)).2.1
    (Or.inl (by norm_num [vW, cW, refW]))

theorem svLoop_taunt_accept (atk : Attacker) (v : HostileRef) (cvm : Bool) (c : HostileRef)
    (rest : List HostileRef) (htgt : c.target ≠ v.target) (htaunt : v.taunt < c.taunt) :
    svLoop atk v cvm (c :: rest) = some c := by
  simp only [svLoop]
  rw [if_neg htgt, if_pos htaunt]

theorem threatSortCmp_taunt_true (force : Bool) (atk : Attacker) (x c : HostileRef)
    (h : x.taunt < c.taunt) : threatSortCmp false force atk c x = true := by
  have hne : c.taunt ≠ x.taunt := by omega
  simp only [threatSortCmp]
  simp [hne, h]

/-- C7: the victim-selection scan accepts any candidate whose taunt rank
strictly exceeds the current victim's, before reachability, hostile state or
threat are even consulted; consequently, on a list sorted by the update
comparator (creature owner) in which one reference out-taunts every other,
that reference is selected over the current victim regardless of the threat
values involved. -/
theorem taunt_overrides_selection :
    (∀ (atk : Attacker) (v : HostileRef) (cvm : Bool) (c : HostileRef) (rest : List HostileRef),
        c.target ≠ v.target → v.taunt < c.taunt →
        svLoop atk v cvm (c :: rest) = some c) ∧
    (∀ (atk : Attacker) (force : Bool) (l : List HostileRef) (v c : HostileRef),
        SortedByThreat false force atk l →
        (l.map HostileRef.target).Nodup →
        c ∈ l → c.target ≠ v.target → v.taunt < c.taunt →
        (∀ r ∈ l, r.target ≠ c.target → r.taunt < c.taunt) →
        ThreatContainer.selectNextVictim atk l (some v) = some c) := by
  constructor
  · intro atk v cvm c rest htgt htaunt
    exact svLoop_taunt_accept atk v cvm c rest htgt htaunt
  · intro atk force l v c hsort hnd hc htgt htaunt hall
    cases l with
    | nil => cases hc
    | cons x t =>
      simp only [SortedByThreat] at hsort
      have hxc : x = c := by
        by_cases hxeq : x = c
        · exact hxeq
        · exfalso
          rcases List.mem_cons.mp hc with hh | hh
          · exact hxeq hh.symm
          · have hne : x.target ≠ c.target := fun hteq =>
              hxeq (List.inj_on_of_nodup_map hnd (List.mem_cons_self x t)
                (List.mem_cons_of_mem x hh) hteq)
            have hlt : x.taunt < c.taunt := hall x (List.mem_cons_self x t) hne
            have hfalse : threatSortCmp false force atk c x = false :=
              (List.pairwise_cons.mp hsort).1 c hh
            rw [threatSortCmp_taunt_true force atk x c hlt] at hfalse
            cases hfalse
      subst hxc
      simp only [ThreatContainer.selectNextVictim]
      exact svLoop_taunt_accept atk v _ x t htgt htaunt

theorem taunt_overrides_selection_witness :
    svLoop atkW vW true [cT] = some cT ∧
    ThreatContainer.selectNextVictim atkW [cT, vW] (some vW) = some cT :=
  ⟨taunt_overrides_selection.1 atkW vW true cT [] (by decide) (by decide),
   taunt_overrides_selection.2 atkW false [cT, vW] vW cT
     (by simp only [SortedByThreat]; decide) (by decide)
     (List.mem_cons_self _ _) (by decide) (by decide) (by decide)⟩

/-- C5 (code bug): for a target tracked in neither container,
`getThreat(target, alsoSearchOfflineList = true)` does not return the neutral
0: the final `else if` branch of ThreatManager::getThreat re-runs the offline
lookup and calls `getThreat()` on its null result (modelled as `none`), an
invalid dereference.  With `alsoSearchOfflineList = false` the same lookup
returns the neutral 0. -/
theorem getThreat_unknown_target_crash :
    ThreatManager.getThreat emptyMgrState 7 true = none ∧
    ThreatManager.getThreat emptyMgrState 7 true ≠ some 0 ∧
    ThreatManager.getThreat emptyMgrState 7 false = some 0 := by
  refine ⟨rfl, by simp [ThreatManager.getThreat, ThreatContainer.getReferenceByTarget,
    emptyMgrState], rfl⟩

/-- C10: the client-sync gate returns false on an empty reachable set without
touching the countdown; on a nonempty set it returns true exactly when the
elapsed time consumes the countdown, resetting it to the configured interval,
and otherwise decrements the countdown by the elapsed time. -/
theorem isNeedUpdateToClient_spec :
    ∀ (s : ManagerState) (t : Nat),
      (s.reachable = [] → ThreatManager.isNeedUpdateToClient s t = (false, s)) ∧
      (s.reachable ≠ [] →
        ((ThreatManager.isNeedUpdateToClient s t).1 = true ↔ s.updateTimer ≤ t) ∧
        (s.updateTimer ≤ t →
          (ThreatManager.isNeedUpdateToClient s t).2.updateTimer = THREAT_UPDATE_INTERVAL) ∧
        (t < s.updateTimer →
          ThreatManager.isNeedUpdateToClient s t
            = (false, { s with updateTimer := s.updateTimer - t }))) := by
  intro s t
  constructor
  · intro h
    simp [ThreatManager.isNeedUpdateToClient, h]
  · intro h
    have he : ¬(s.reachable.isEmpty = true) := by
      simpa [List.isEmpty_iff] using h
    by_cases hle : s.updateTimer ≤ t
    · refine ⟨?_, ?_, ?_⟩
      · simp [ThreatManager.isNeedUpdateToClient, he, hle]
      · intro h2
        simp [ThreatManager.isNeedUpdateToClient, he, hle]
      · intro hlt
        omega
    · refine ⟨?_, ?_, ?_⟩
      · simp [ThreatManager.isNeedUpdateToClient, he, hle]
      · intro h2
        omega
      · intro hlt
        simp [ThreatManager.isNeedUpdateToClient, he, hle]

theorem isNeedUpdateToClient_spec_witness :
    (ThreatManager.isNeedUpdateToClient oneRefState 2500).1 = true ∧
    (ThreatManager.isNeedUpdateToClient oneRefState 2500).2.updateTimer = THREAT_UPDATE_INTERVAL :=
  ⟨((isNeedUpdateToClient_spec oneRefState 2500).2 (by simp [oneRefState, emptyMgrState])).1.mpr
      (by norm_num [oneRefState, emptyMgrState, THREAT_UPDATE_INTERVAL]),
   ((isNeedUpdateToClient_spec oneRefState 2500).2 (by simp [oneRefState, emptyMgrState])).2.1
      (by norm_num [oneRefState, emptyMgrState, THREAT_UPDATE_INTERVAL])⟩

/-! Manager-level structural lemmas. -/

theorem getRef_some_mem {l : List HostileRef} {tid : Nat} {r : HostileRef}
    (h : ThreatContainer.getReferenceByTarget l tid = some r) : r ∈ l ∧ r.target = tid := by
  refine ⟨List.mem_of_find?_eq_some h, ?_⟩
  have h2 := List.find?_some h
  simpa using h2

theorem getRef_isSome_of_mem {l : List HostileRef} {tid : Nat} {x : HostileRef}
    (hx : x ∈ l) (ht : x.target = tid) :
    ∃ r, ThreatContainer.getReferenceByTarget l tid = some r := by
  cases hfind : ThreatContainer.getReferenceByTarget l tid with
  | some r => exact ⟨r, rfl⟩
  | none =>
      exfalso
      have h2 := List.find?_eq_none.mp hfind x hx
      simp [ht] at h2

theorem findRef_of_reachable {s : ManagerState} {tid : Nat} {r : HostileRef}
    (h : ThreatContainer.getReferenceByTarget s.reachable tid = some r) :
    findRef s tid = some r := by
  unfold findRef
  rw [h]

theorem findRef_target {s : ManagerState} {tid : Nat} {r : HostileRef}
    (h : findRef s tid = some r) : r.target = tid := by
  unfold findRef at h
  cases h2 : ThreatContainer.getReferenceByTarget s.reachable tid with
  | some r2 =>
      rw [h2] at h
      cases h
      exact (getRef_some_mem h2).2
  | none =>
      rw [h2] at h
      exact (getRef_some_mem h).2

theorem mapRefM_victim (s : ManagerState) (tid : Nat) (f : HostileRef → HostileRef) :
    (mapRefM s tid f).currentVictim = s.currentVictim := by
  unfold mapRefM
  split <;> rfl

theorem ptce_victim (s : ManagerState) (tid : Nat) (v : ℚ) :
    (processThreatChangeEvent s tid v).currentVictim = s.currentVictim := by
  unfold processThreatChangeEvent
  split <;> rfl

theorem ptce_reachable (s : ManagerState) (tid : Nat) (v : ℚ) :
    (processThreatChangeEvent s tid v).reachable = s.reachable := by
  unfold processThreatChangeEvent
  split <;> rfl

theorem pse_victim (env : OwnerEnv) (s : ManagerState) (tid : Nat) :
    (processSuppressedEvent env s tid).currentVictim = s.currentVictim := rfl

theorem pse_reachable (env : OwnerEnv) (s : ManagerState) (tid : Nat) :
    (processSuppressedEvent env s tid).reachable = (ClearSuppressed env s tid).reachable := rfl

theorem clearSuppressed_victim (env : OwnerEnv) (s : ManagerState) (tid : Nat) :
    (ClearSuppressed env s tid).currentVictim = s.currentVictim := rfl

theorem clearSuppressed_pair (env : OwnerEnv) (s : ManagerState) (tid : Nat) :
    (ClearSuppressed env s tid).reachable.map (fun x => (x.target, x.threat))
      = s.reachable.map (fun x => (x.target, x.threat)) := by
  unfold ClearSuppressed
  rw [List.map_map]
  refine List.map_congr_left ?_
  intro a ha
  by_cases h : (a.hostile = STATE_SUPPRESSED ∧ a.target ≠ tid ∧
      env.isSuppressedTarget a.target = false) <;> simp [h]

theorem mapRefM_pair_id (s : ManagerState) (tid : Nat) (f : HostileRef → HostileRef)
    (hft : ∀ x, (f x).target = x.target) (hfthr : ∀ x, (f x).threat = x.threat) :
    (mapRefM s tid f).reachable.map (fun x => (x.target, x.threat))
      = s.reachable.map (fun x => (x.target, x.threat)) := by
  unfold mapRefM
  split
  · unfold mapRefList
    rw [List.map_map]
    refine List.map_congr_left ?_
    intro a ha
    by_cases h : a.target = tid <;> simp [h, hft, hfthr]
  · rfl

theorem mapRefM_pair_add (s : ManagerState) (tid : Nat) (d : ℚ) :
    (mapRefM s tid (fun x => { x with threat := x.threat + d })).reachable.map
        (fun x => (x.target, x.threat))
      = s.reachable.map (fun x => (x.target, if x.target = tid then x.threat + d else x.threat)) := by
  unfold mapRefM
  split
  · unfold mapRefList
    rw [List.map_map]
    refine List.map_congr_left ?_
    intro a ha
    by_cases h : a.target = tid <;> simp [h]
  · next hany =>
      refine List.map_congr_left ?_
      intro a ha
      have hne : ¬(a.target = tid) := by
        intro ht
        exact hany (List.any_eq_true.mpr ⟨a, ha, by simp [ht]⟩)
      simp [hne]

theorem applyAddThreat_pair (env : OwnerEnv) (s : ManagerState) (tid : Nat) (m : ℚ)
    (r0 : HostileRef) (hf : findRef s tid = some r0) :
    (applyAddThreat env s tid m).reachable.map (fun x => (x.target, x.threat))
      = s.reachable.map (fun x => (x.target,
          if x.target = tid then x.threat + (if m + r0.threat < 0 then -r0.threat else m)
          else x.threat)) := by
  simp only [applyAddThreat, hf]
  set m2 := (if m + r0.threat < 0 then -r0.threat else m) with hm2
  by_cases htog : r0.suppressToggle = true ∧ m2 ≠ 0
  · rw [if_pos htog.2, if_pos htog]
    by_cases hhost : r0.hostile ≠ STATE_NORMAL
    · rw [if_pos hhost, ptce_reachable, pse_reachable, clearSuppressed_pair,
        mapRefM_pair_id _ _ (fun x => { x with hostile := STATE_NORMAL, suppressToggle := false })
          (fun x => rfl) (fun x => rfl),
        mapRefM_pair_add]
    · rw [if_neg hhost, ptce_reachable,
        mapRefM_pair_id _ _ (fun x => { x with suppressToggle := false })
          (fun x => rfl) (fun x => rfl),
        mapRefM_pair_add]
  · by_cases hm0 : m2 ≠ 0
    · rw [if_pos hm0, if_neg htog, ptce_reachable, mapRefM_pair_add]
    · rw [if_neg hm0, if_neg htog, mapRefM_pair_add]

theorem applyAddThreat_victim (env : OwnerEnv) (s : ManagerState) (tid : Nat) (m : ℚ) :
    (applyAddThreat env s tid m).currentVictim = s.currentVictim := by
  cases hf : findRef s tid with
  | none => simp only [applyAddThreat, hf]
  | some r0 =>
      simp only [applyAddThreat, hf]
      set m2 := (if m + r0.threat < 0 then -r0.threat else m) with hm2
      by_cases htog : r0.suppressToggle = true ∧ m2 ≠ 0
      · rw [if_pos htog.2, if_pos htog]
        by_cases hhost : r0.hostile ≠ STATE_NORMAL
        · rw [if_pos hhost, ptce_victim, pse_victim, mapRefM_victim, mapRefM_victim]
        · rw [if_neg hhost, ptce_victim, mapRefM_victim, mapRefM_victim]
      · by_cases hm0 : m2 ≠ 0
        · rw [if_pos hm0, if_neg htog, ptce_victim, mapRefM_victim]
        · rw [if_neg hm0, if_neg htog, mapRefM_victim]

theorem targets_eq_of_pair {l2 l : List HostileRef} {g : HostileRef → ℚ}
    (h : l2.map (fun x => (x.target, x.threat)) = l.map (fun x => (x.target, g x))) :
    l2.map HostileRef.target = l.map HostileRef.target := by
  have h2 := congrArg (List.map Prod.fst) h
  rw [List.map_map, List.map_map] at h2
  exact h2

theorem applyAddThreat_targets (env : OwnerEnv) (s : ManagerState) (tid : Nat) (m : ℚ) :
    (applyAddThreat env s tid m).reachable.map HostileRef.target
      = s.reachable.map HostileRef.target := by
  cases hf : findRef s tid with
  | none => simp only [applyAddThreat, hf]
  | some r0 => exact targets_eq_of_pair (applyAddThreat_pair env s tid m r0 hf)

theorem applyAddThreatPercent_victim (env : OwnerEnv) (s : ManagerState) (tid : Nat) (pct : Int) :
    (applyAddThreatPercent env s tid pct).currentVictim = s.currentVictim := by
  cases hf : findRef s tid with
  | none => simp only [applyAddThreatPercent, hf]
  | some r =>
      simp only [applyAddThreatPercent, hf]
      exact applyAddThreat_victim env s tid _

theorem applyAddThreatPercent_targets (env : OwnerEnv) (s : ManagerState) (tid : Nat) (pct : Int) :
    (applyAddThreatPercent env s tid pct).reachable.map HostileRef.target
      = s.reachable.map HostileRef.target := by
  cases hf : findRef s tid with
  | none => simp only [applyAddThreatPercent, hf]
  | some r =>
      simp only [applyAddThreatPercent, hf]
      exact applyAddThreat_targets env s tid _

theorem not_mem_removeRef (l : List HostileRef) (tid : Nat) :
    tid ∉ (ThreatContainer.removeRef l tid).map HostileRef.target := by
  unfold ThreatContainer.removeRef
  intro h
  rcases List.mem_map.mp h with ⟨x, hx, hxt⟩
  rcases List.mem_filter.mp hx with ⟨-, hp⟩
  simp [hxt] at hp

theorem mem_removeRef_of_ne {l : List HostileRef} {t tid : Nat} (hne : t ≠ tid)
    (h : t ∈ l.map HostileRef.target) :
    t ∈ (ThreatContainer.removeRef l tid).map HostileRef.target := by
  unfold ThreatContainer.removeRef
  rcases List.mem_map.mp h with ⟨x, hx, hxt⟩
  refine List.mem_map.mpr ⟨x, List.mem_filter.mpr ⟨hx, ?_⟩, hxt⟩
  subst hxt
  simpa using hne

theorem getRef_cons_self (r : HostileRef) (t : List HostileRef) :
    ThreatContainer.getReferenceByTarget (r :: t) r.target = some r := by
  unfold ThreatContainer.getReferenceByTarget
  simp [List.find?_cons_of_pos]

theorem removeRef_cons_self (r : HostileRef) (t : List HostileRef) :
    ThreatContainer.removeRef (r :: t) r.target = ThreatContainer.removeRef t r.target := by
  unfold ThreatContainer.removeRef
  simp

theorem processRemoveEvent_reachable {s : ManagerState} {tid : Nat} {r : HostileRef}
    (hfind : findRef s tid = some r) (honl : r.online = true) :
    (processRemoveEvent s tid).reachable = ThreatContainer.removeRef s.reachable tid := by
  simp only [processRemoveEvent, hfind, if_pos honl]
  split <;> rfl

theorem findRef_none_reachable {s : ManagerState} {tid : Nat} (h : findRef s tid = none) :
    ∀ x ∈ s.reachable, x.target ≠ tid := by
  intro x hx heq
  rcases getRef_isSome_of_mem hx heq with ⟨r, hr⟩
  rw [findRef_of_reachable hr] at h
  cases h

theorem removeAllLoop_empties :
    ∀ (n : Nat) (s : ManagerState), s.reachable.length ≤ n →
      (∀ r ∈ s.reachable, r.online = true) → (removeAllLoop n s).reachable = [] := by
  intro n
  induction n with
  | zero =>
      intro s hlen honl
      have hnil : s.reachable = [] := List.eq_nil_of_length_eq_zero (Nat.le_zero.mp hlen)
      simp [removeAllLoop, hnil]
  | succ n ih =>
      intro s hlen honl
      cases hr : s.reachable with
      | nil => simp [removeAllLoop, hr]
      | cons r t =>
          have hfind : findRef s r.target = some r := by
            apply findRef_of_reachable
            rw [hr]
            exact getRef_cons_self r t
          have honl_r : r.online = true := honl r (by rw [hr]; exact List.mem_cons_self r t)
          have hre : (processRemoveEvent s r.target).reachable
              = ThreatContainer.removeRef t r.target := by
            rw [processRemoveEvent_reachable hfind honl_r, hr, removeRef_cons_self]
          have hlen2 : (processRemoveEvent s r.target).reachable.length ≤ n := by
            rw [hre]
            have h1 : (ThreatContainer.removeRef t r.target).length ≤ t.length :=
              List.length_filter_le _ t
            have h2 : t.length + 1 ≤ n + 1 := by
              rw [hr] at hlen
              simpa using hlen
            omega
          have honl2 : ∀ x ∈ (processRemoveEvent s r.target).reachable, x.online = true := by
            intro x hx
            rw [hre] at hx
            have hxt : x ∈ t := (List.mem_filter.mp hx).1
            exact honl x (by rw [hr]; exact List.mem_cons_of_mem r hxt)
          simp only [removeAllLoop, hr]
          exact ih (processRemoveEvent s r.target) hlen2 honl2

theorem modifyAll_zero_fold (env : OwnerEnv) :
    ∀ (ts : List Nat) (st : ManagerState),
      (st.reachable.map HostileRef.target).Nodup →
      (∀ r ∈ st.reachable, r.target ∉ ts → r.threat = 0) →
      ((ts.foldl (fun st2 tid => applyAddThreatPercent env st2 tid (-100)) st).reachable.map
          HostileRef.target = st.reachable.map HostileRef.target ∧
        ∀ r ∈ (ts.foldl (fun st2 tid => applyAddThreatPercent env st2 tid (-100)) st).reachable,
          r.threat = 0) := by
  intro ts
  induction ts with
  | nil =>
      intro st hnd hpre
      exact ⟨rfl, fun r hr => hpre r hr (by simp)⟩
  | cons tid rest ih =>
      intro st hnd hpre
      have hstep_t : (applyAddThreatPercent env st tid (-100)).reachable.map HostileRef.target
          = st.reachable.map HostileRef.target := applyAddThreatPercent_targets env st tid (-100)
      have hnd2 : ((applyAddThreatPercent env st tid (-100)).reachable.map HostileRef.target).Nodup := by
        rw [hstep_t]
        exact hnd
      have hpre2 : ∀ r2 ∈ (applyAddThreatPercent env st tid (-100)).reachable,
          r2.target ∉ rest → r2.threat = 0 := by
        intro r2 hr2 hnotin
        cases hf : findRef st tid with
        | none =>
            have hid : applyAddThreatPercent env st tid (-100) = st := by
              simp only [applyAddThreatPercent, hf]
            rw [hid] at hr2
            have hneq : r2.target ≠ tid := findRef_none_reachable hf r2 hr2
            refine hpre r2 hr2 ?_
            intro hmem
            rcases List.mem_cons.mp hmem with h1 | h1
            · exact hneq h1
            · exact hnotin h1
        | some r0 =>
            have happ : applyAddThreatPercent env st tid (-100)
                = applyAddThreat env st tid (r0.threat * ((-100 : Int) : ℚ) / 100) := by
              simp only [applyAddThreatPercent, hf]
            have hm : r0.threat * ((-100 : Int) : ℚ) / 100 = -r0.threat := by
              push_cast
              ring
            have hpair := applyAddThreat_pair env st tid (r0.threat * ((-100 : Int) : ℚ) / 100) r0 hf
            rw [happ] at hr2
            have hmemp : (r2.target, r2.threat) ∈
                (applyAddThreat env st tid (r0.threat * ((-100 : Int) : ℚ) / 100)).reachable.map
                  (fun x => (x.target, x.threat)) :=
              List.mem_map_of_mem _ hr2
            rw [hpair] at hmemp
            rcases List.mem_map.mp hmemp with ⟨x, hxmem, hxeq⟩
            have hxt : x.target = r2.target := congrArg Prod.fst hxeq
            have hxthr : (if x.target = tid
                then x.threat + (if r0.threat * ((-100 : Int) : ℚ) / 100 + r0.threat < 0
                  then -r0.threat else r0.threat * ((-100 : Int) : ℚ) / 100)
                else x.threat) = r2.threat := congrArg Prod.snd hxeq
            by_cases hxtid : x.target = tid
            · have hr0mem : r0 ∈ st.reachable ∧ r0.target = tid := by
                rcases getRef_isSome_of_mem hxmem hxtid with ⟨rr, hrr⟩
                have h3 : findRef st tid = some rr := findRef_of_reachable hrr
                rw [hf] at h3
                injection h3 with h4
                rw [← h4] at hrr
                exact ⟨(getRef_some_mem hrr).1, (getRef_some_mem hrr).2⟩
              have hxr0 : x = r0 :=
                List.inj_on_of_nodup_map hnd hxmem hr0mem.1 (by rw [hxtid, hr0mem.2])
              have hnc : ¬(r0.threat * ((-100 : Int) : ℚ) / 100 + r0.threat < 0) := by
                rw [hm]
                simp
              rw [if_pos hxtid, if_neg hnc, hm, hxr0] at hxthr
              rw [← hxthr]
              ring
            · rw [if_neg hxtid] at hxthr
              have hx0 : x.threat = 0 := by
                refine hpre x hxmem ?_
                intro hmem
                rcases List.mem_cons.mp hmem with h1 | h1
                · exact hxtid h1
                · rw [hxt] at h1
                  exact hnotin h1
              rw [← hxthr]
              exact hx0
      rcases ih (applyAddThreatPercent env st tid (-100)) hnd2 hpre2 with ⟨ht, hz⟩
      exact ⟨ht.trans hstep_t, hz⟩

/-- C2 counterexample: `modifyAllThreatPercent(-100)` does NOT empty the
reachable set: the code only takes the remove-all branch for `pct < -100`
(strict), so at exactly -100 every member is scaled (to zero) and kept. -/
theorem modifyAllThreatPercent_neg100_counterexample :
    (ThreatManager.modifyAllThreatPercent envW oneRefState (-100)).reachable.map HostileRef.target
      = [1] := by
  have h100 : ¬((-100 : Int) < -100) := by omega
  simp only [ThreatManager.modifyAllThreatPercent, if_neg h100]
  show (applyAddThreatPercent envW oneRefState 1 (-100)).reachable.map HostileRef.target = [1]
  rw [applyAddThreatPercent_targets]
  rfl

/-- C2 amended: for `pct < -100` (strict) the loop removes and destroys every
member of the reachable set (each member of the reachable list is online),
leaving it empty; at exactly `pct = -100` every member's threat value is
scaled to zero but the membership of the set is unchanged. -/
theorem modifyAllThreatPercent_spec :
    (∀ (env : OwnerEnv) (s : ManagerState) (pct : Int), pct < -100 →
        (∀ r ∈ s.reachable, r.online = true) →
        (ThreatManager.modifyAllThreatPercent env s pct).reachable = []) ∧
    (∀ (env : OwnerEnv) (s : ManagerState),
        (s.reachable.map HostileRef.target).Nodup →
        ((ThreatManager.modifyAllThreatPercent env s (-100)).reachable.map HostileRef.target
            = s.reachable.map HostileRef.target ∧
          ∀ r ∈ (ThreatManager.modifyAllThreatPercent env s (-100)).reachable, r.threat = 0)) := by
  constructor
  · intro env s pct hpct honl
    simp only [ThreatManager.modifyAllThreatPercent, if_pos hpct]
    exact removeAllLoop_empties s.reachable.length s le_rfl honl
  · intro env s hnd
    have h100 : ¬((-100 : Int) < -100) := by omega
    simp only [ThreatManager.modifyAllThreatPercent, if_neg h100]
    have hpre : ∀ r ∈ s.reachable, r.target ∉ s.reachable.map (fun r => r.target) → r.threat = 0 := by
      intro r hr hmem
      exact absurd (List.mem_map_of_mem _ hr) hmem
    exact modifyAll_zero_fold env (s.reachable.map (fun r => r.target)) s hnd hpre

theorem modifyAllThreatPercent_spec_witness :
    (ThreatManager.modifyAllThreatPercent envW oneRefState (-150)).reachable = [] ∧
    ∀ r ∈ (ThreatManager.modifyAllThreatPercent envW oneRefState (-100)).reachable, r.threat = 0 :=
  ⟨modifyAllThreatPercent_spec.1 envW oneRefState (-150) (by omega)
      (by
        intro r hr
        have h2 : r = refW := by simpa [oneRefState, emptyMgrState] using hr
        rw [h2]
        rfl),
   (modifyAllThreatPercent_spec.2 envW oneRefState (by decide)).2⟩

/-- C3 counterexample: at exactly pct = -100 the tracked reference is NOT
removed: the removal branch requires `pct < -100` (strict), so the reference
survives (with its threat scaled to zero). -/
theorem modifyThreatPercent_neg100_counterexample :
    (ThreatManager.modifyThreatPercent envW oneRefState 1 (-100)).reachable.map HostileRef.target
      = [1] := by
  have hget : ThreatContainer.getReferenceByTarget oneRefState.reachable 1 = some refW := rfl
  have hlt : ¬((-100 : Int) < -100) := by omega
  simp only [ThreatManager.modifyThreatPercent, hget, if_neg hlt]
  rw [applyAddThreatPercent_targets]
  rfl

/-- C3 amended: for a target tracked in the reachable set,
`modifyThreatPercent` removes and destroys the reference only for
`pct < -100` (strict); for `pct ≥ -100` (including exactly -100) it scales
the stored threat by `(100 + pct)/100`, leaving every other reference
untouched; a target with no reachable reference is unaffected. -/
theorem modifyThreatPercent_spec :
    (∀ (env : OwnerEnv) (s : ManagerState) (tid : Nat) (pct : Int) (r : HostileRef),
        pct < -100 → ThreatContainer.getReferenceByTarget s.reachable tid = some r →
        r.online = true →
        tid ∉ (ThreatManager.modifyThreatPercent env s tid pct).reachable.map HostileRef.target) ∧
    (∀ (env : OwnerEnv) (s : ManagerState) (tid : Nat) (pct : Int) (r : HostileRef),
        -100 ≤ pct → ThreatContainer.getReferenceByTarget s.reachable tid = some r →
        0 ≤ r.threat → (s.reachable.map HostileRef.target).Nodup →
        (ThreatManager.modifyThreatPercent env s tid pct).reachable.map
            (fun x => (x.target, x.threat))
          = s.reachable.map (fun x => (x.target,
              if x.target = tid then x.threat * ((100 + pct : Int) : ℚ) / 100 else x.threat))) ∧
    (∀ (env : OwnerEnv) (s : ManagerState) (tid : Nat) (pct : Int),
        ThreatContainer.getReferenceByTarget s.reachable tid = none →
        ThreatManager.modifyThreatPercent env s tid pct = s) := by
  refine ⟨?_, ?_, ?_⟩
  · intro env s tid pct r hpct hget honl
    have hfind : findRef s tid = some r := findRef_of_reachable hget
    simp only [ThreatManager.modifyThreatPercent, hget, if_pos hpct]
    rw [processRemoveEvent_reachable hfind honl]
    exact not_mem_removeRef s.reachable tid
  · intro env s tid pct r hpct hget hr0 hnd
    have hfind : findRef s tid = some r := findRef_of_reachable hget
    have hlt : ¬(pct < -100) := by omega
    simp only [ThreatManager.modifyThreatPercent, hget, if_neg hlt]
    simp only [applyAddThreatPercent, hfind]
    rw [applyAddThreat_pair env s tid (r.threat * (pct : ℚ) / 100) r hfind]
    refine List.map_congr_left ?_
    intro a ha
    by_cases h : a.target = tid
    · have hmem := (getRef_some_mem hget).1
      have hrt := (getRef_some_mem hget).2
      have har : a = r := List.inj_on_of_nodup_map hnd ha hmem (by rw [h, hrt])
      subst har
      have hcast : (-100 : ℚ) ≤ (pct : ℚ) := by exact_mod_cast hpct
      have hnc : ¬(a.threat * (pct : ℚ) / 100 + a.threat < 0) := by
        push_neg
        have key : a.threat * (pct : ℚ) / 100 + a.threat = a.threat * ((pct : ℚ) + 100) / 100 := by
          ring
        rw [key]
        apply div_nonneg (mul_nonneg hr0 (by linarith)) (by norm_num)
      simp only [if_pos h, if_neg hnc]
      have key2 : a.threat + a.threat * (pct : ℚ) / 100
          = a.threat * ((100 + pct : Int) : ℚ) / 100 := by
        push_cast
        ring
      rw [key2]
    · simp only [if_neg h]
  · intro env s tid pct hnone
    simp only [ThreatManager.modifyThreatPercent, hnone]

theorem modifyThreatPercent_spec_witness :
    1 ∉ (ThreatManager.modifyThreatPercent envW oneRefState 1 (-150)).reachable.map
        HostileRef.target ∧
    ThreatManager.modifyThreatPercent envW oneRefState 5 (-150) = oneRefState :=
  ⟨modifyThreatPercent_spec.1 envW oneRefState 1 (-150) refW (by omega) rfl rfl,
   modifyThreatPercent_spec.2.2 envW oneRefState 5 (-150) rfl⟩

/-- C9: when the calculated threat is positive, the owner does not ignore
misdirection, and the victim has an applicable redirection target (alive and
distinct from the owner), `ThreatManager::addThreat` registers the full
calculated amount on the redirect target and a zero amount on the original
victim; and registering a zero amount on an already-tracked reference leaves
both its membership and every stored threat value unchanged, so the original
target remains tracked without gaining threat. -/
theorem addThreat_redirection :
    (∀ (ce : CalcEnv) (me : MgrEnv) (victim : Nat) (threat : ℚ)
        (crit hasSpell assist attr : Bool) (rt : Nat),
        victim ≠ me.ownerId → me.isGameMaster victim = false →
        me.alive victim = true → me.ownerAlive = true →
        0 < ThreatCalcHelper.CalcThreat ce threat crit hasSpell assist →
        me.ignoringMisdirection = false →
        me.redirectTarget victim = some rt → rt ≠ me.ownerId → me.alive rt = true →
        ThreatManager.addThreatCalls ce me victim threat crit hasSpell assist attr
          = [(rt, ThreatCalcHelper.CalcThreat ce threat crit hasSpell assist, false),
             (victim, 0, attr)]) ∧
    (∀ (env : OwnerEnv) (s : ManagerState) (tid : Nat) (r0 : HostileRef),
        findRef s tid = some r0 → 0 ≤ r0.threat →
        (applyAddThreat env s tid 0).currentVictim = s.currentVictim ∧
        (applyAddThreat env s tid 0).reachable.map (fun x => (x.target, x.threat))
          = s.reachable.map (fun x => (x.target, x.threat))) := by
  constructor
  · intro ce me victim threat crit hasSpell assist attr rt h1 h2 h3 h4 hct h5 h6 h7 h8
    simp only [ThreatManager.addThreatCalls]
    rw [if_neg h1, if_neg (by simp [h2]), if_neg (by simp [h3, h4]),
      if_pos ⟨hct, h5⟩, h6]
    simp [h7, h8]
  · intro env s tid r0 hf h0
    refine ⟨applyAddThreat_victim env s tid 0, ?_⟩
    rw [applyAddThreat_pair env s tid 0 r0 hf]
    refine List.map_congr_left ?_
    intro a ha
    by_cases h : a.target = tid
    · have hnc : ¬(r0.threat < 0) := not_lt.mpr h0
      simp [h, hnc]
    · simp [h]

theorem addThreat_redirection_witness :
    ThreatManager.addThreatCalls calcW mgrEnvW 2 50 false false false false
      = [(9, ThreatCalcHelper.CalcThreat calcW 50 false false false, false), (2, 0, false)] ∧
    (applyAddThreat envW oneRefState 1 0).reachable.map (fun x => (x.target, x.threat))
      = oneRefState.reachable.map (fun x => (x.target, x.threat)) :=
  ⟨addThreat_redirection.1 calcW mgrEnvW 2 50 false false false false 9 (by decide) rfl rfl rfl
      (by norm_num [ThreatCalcHelper.CalcThreat, calcW]) rfl rfl (by decide) rfl,
   (addThreat_redirection.2 envW oneRefState 1 refW rfl (by norm_num [refW])).2⟩

/-! Victim-membership invariant machinery. -/

theorem victimInv_of_eq_eq {s s2 : ManagerState} (hv : s2.currentVictim = s.currentVictim)
    (hr : s2.reachable.map HostileRef.target = s.reachable.map HostileRef.target) :
    victimInv s → victimInv s2 := by
  intro hinv t ht
  rw [hr]
  exact hinv t (by rw [← hv]; exact ht)

theorem mapRefM_targets (s : ManagerState) (tid : Nat) (f : HostileRef → HostileRef)
    (hft : ∀ x, (f x).target = x.target) :
    (mapRefM s tid f).reachable.map HostileRef.target = s.reachable.map HostileRef.target := by
  unfold mapRefM
  split
  · unfold mapRefList
    rw [List.map_map]
    refine List.map_congr_left ?_
    intro a ha
    by_cases h : a.target = tid <;> simp [h, hft]
  · rfl

theorem clearSuppressed_targets (env : OwnerEnv) (s : ManagerState) (tid : Nat) :
    (ClearSuppressed env s tid).reachable.map HostileRef.target
      = s.reachable.map HostileRef.target :=
  targets_eq_of_pair (clearSuppressed_pair env s tid)

theorem processOnlineEvent_inv (s : ManagerState) (tid : Nat) :
    victimInv s → victimInv (processOnlineEvent s tid) := by
  intro hinv
  cases hf : findRef s tid with
  | none => simpa only [processOnlineEvent, hf] using hinv
  | some r =>
      simp only [processOnlineEvent, hf]
      by_cases honl : r.online = false
      · rw [if_pos honl]
        by_cases hvic : s.currentVictim = some tid
        · rw [if_pos hvic]
          intro t ht
          simp at ht
        · rw [if_neg hvic]
          intro t ht
          have ht2 : s.currentVictim = some t := ht
          have hne : t ≠ tid := by
            intro heq
            rw [heq] at ht2
            exact hvic ht2
          exact mem_removeRef_of_ne hne (hinv t ht2)
      · rw [if_neg honl]
        intro t ht
        have ht2 : s.currentVictim = some t := ht
        show t ∈ (s.reachable ++ [r]).map HostileRef.target
        rw [List.map_append]
        exact List.mem_append_left _ (hinv t ht2)

theorem setOnlineOfflineState_inv (s : ManagerState) (tid : Nat) (b : Bool) :
    victimInv s → victimInv (setOnlineOfflineState s tid b) := by
  intro hinv
  cases hf : findRef s tid with
  | none => simpa only [setOnlineOfflineState, hf] using hinv
  | some r =>
      simp only [setOnlineOfflineState, hf]
      by_cases heq : r.online = b
      · rw [if_pos heq]
        exact hinv
      · rw [if_neg heq]
        refine processOnlineEvent_inv _ tid ?_
        exact victimInv_of_eq_eq (mapRefM_victim s tid _)
          (mapRefM_targets s tid (fun x => { x with online := b }) (fun x => rfl)) hinv

theorem processRemoveEvent_inv (s : ManagerState) (tid : Nat) :
    victimInv s → victimInv (processRemoveEvent s tid) := by
  intro hinv
  cases hf : findRef s tid with
  | none => simpa only [processRemoveEvent, hf] using hinv
  | some r =>
      simp only [processRemoveEvent, hf]
      by_cases honl : r.online = true
      · rw [if_pos honl]
        by_cases hvic : s.currentVictim = some tid
        · rw [if_pos hvic]
          intro t ht
          simp at ht
        · rw [if_neg hvic]
          intro t ht
          have ht2 : s.currentVictim = some t := ht
          have hne : t ≠ tid := by
            intro heq
            rw [heq] at ht2
            exact hvic ht2
          exact mem_removeRef_of_ne hne (hinv t ht2)
      · rw [if_neg honl]
        by_cases hvic : s.currentVictim = some tid
        · rw [if_pos hvic]
          intro t ht
          simp at ht
        · rw [if_neg hvic]
          intro t ht
          exact hinv t ht

theorem setHostileStateM_inv (env : OwnerEnv) (s : ManagerState) (tid st : Nat) :
    victimInv s → victimInv (setHostileStateM env s tid st) := by
  intro hinv
  cases hf : findRef s tid with
  | none => simpa only [setHostileStateM, hf] using hinv
  | some r =>
      simp only [setHostileStateM, hf]
      by_cases hh : r.hostile ≠ st
      · rw [if_pos hh]
        refine victimInv_of_eq_eq ?_ ?_ hinv
        · rw [pse_victim, mapRefM_victim]
        · rw [pse_reachable, clearSuppressed_targets,
            mapRefM_targets s tid (fun x => { x with hostile := st, suppressToggle := false })
              (fun x => rfl)]
      · rw [if_neg hh]
        exact victimInv_of_eq_eq (mapRefM_victim s tid _)
          (mapRefM_targets s tid (fun x => { x with suppressToggle := false }) (fun x => rfl))
          hinv

theorem modifyThreatPercent_inv (env : OwnerEnv) (s : ManagerState) (tid : Nat) (pct : Int) :
    victimInv s → victimInv (ThreatManager.modifyThreatPercent env s tid pct) := by
  intro hinv
  cases hg : ThreatContainer.getReferenceByTarget s.reachable tid with
  | none => simpa only [ThreatManager.modifyThreatPercent, hg] using hinv
  | some r =>
      simp only [ThreatManager.modifyThreatPercent, hg]
      by_cases hp : pct < -100
      · rw [if_pos hp]
        exact processRemoveEvent_inv s tid hinv
      · rw [if_neg hp]
        exact victimInv_of_eq_eq (applyAddThreatPercent_victim env s tid pct)
          (applyAddThreatPercent_targets env s tid pct) hinv

theorem removeAllLoop_inv :
    ∀ (n : Nat) (s : ManagerState), victimInv s → victimInv (removeAllLoop n s) := by
  intro n
  induction n with
  | zero => intro s h; exact h
  | succ n ih =>
      intro s h
      cases hr : s.reachable with
      | nil => simpa only [removeAllLoop, hr] using h
      | cons r t =>
          simp only [removeAllLoop, hr]
          exact ih _ (processRemoveEvent_inv s r.target h)

theorem modifyAllThreatPercent_inv (env : OwnerEnv) (s : ManagerState) (pct : Int) :
    victimInv s → victimInv (ThreatManager.modifyAllThreatPercent env s pct) := by
  intro hinv
  unfold ThreatManager.modifyAllThreatPercent
  by_cases hp : pct < -100
  · rw [if_pos hp]
    exact removeAllLoop_inv _ s hinv
  · rw [if_neg hp]
    have haux : ∀ (ts : List Nat) (st : ManagerState), victimInv st →
        victimInv (ts.foldl (fun st2 tid => applyAddThreatPercent env st2 tid pct) st) := by
      intro ts
      induction ts with
      | nil => intro st h; exact h
      | cons a t iht =>
          intro st h
          exact iht _ (victimInv_of_eq_eq (applyAddThreatPercent_victim env st a pct)
            (applyAddThreatPercent_targets env st a pct) h)
    exact haux _ s hinv

theorem update_targets_mem (atk : Attacker) (force isPlayer dirty : Bool)
    (l : List HostileRef) (t : Nat) (h : t ∈ l.map HostileRef.target) :
    t ∈ (ThreatContainer.update atk force isPlayer dirty l).map HostileRef.target := by
  unfold ThreatContainer.update
  split
  · have hperm := List.perm_insertionSort
      (fun a b => threatSortCmp isPlayer force atk a b = true) l
    exact ((hperm.map HostileRef.target).mem_iff).mpr h
  · exact h

theorem updateContainersM_inv (atk : Attacker) (s : ManagerState) :
    victimInv s → victimInv (updateContainersM atk s) := by
  intro hinv t ht
  have ht2 : s.currentVictim = some t := ht
  exact update_targets_mem atk _ _ _ _ t (hinv t ht2)

theorem svNoVictim_mem (atk : Attacker) :
    ∀ (l : List HostileRef) (r : HostileRef), svNoVictim atk l = some r → r ∈ l := by
  intro l
  induction l with
  | nil => intro r h; cases h
  | cons c t ih =>
      intro r h
      simp only [svNoVictim] at h
      split at h
      · cases h
        exact List.mem_cons_self _ _
      · exact List.mem_cons_of_mem _ (ih r h)

theorem svLoop_mem (atk : Attacker) (v : HostileRef) (cvm : Bool) :
    ∀ (l : List HostileRef) (r : HostileRef),
      svLoop atk v cvm l = some r → r ∈ l ∨ r = v := by
  intro l
  induction l with
  | nil => intro r h; cases h
  | cons c t ih =>
      intro r h
      simp only [svLoop] at h
      split at h
      · split at h
        · rcases ih r h with hm | hv
          · exact Or.inl (List.mem_cons_of_mem _ hm)
          · exact Or.inr hv
        · cases h
          exact Or.inl (List.mem_cons_self _ _)
      · split at h
        · cases h
          exact Or.inl (List.mem_cons_self _ _)
        · split at h
          · cases h
            exact Or.inl (List.mem_cons_self _ _)
          · split at h
            · rcases ih r h with hm | hv
              · exact Or.inl (List.mem_cons_of_mem _ hm)
              · exact Or.inr hv
            · split at h
              · cases h
                exact Or.inl (List.mem_cons_self _ _)
              · split at h
                · cases h
                  exact Or.inl (List.mem_cons_self _ _)
                · split at h
                  · cases h
                    exact Or.inr rfl
                  · split at h
                    · cases h
                      exact Or.inl (List.mem_cons_self _ _)
                    · rcases ih r h with hm | hv
                      · exact Or.inl (List.mem_cons_of_mem _ hm)
                      · exact Or.inr hv

theorem selectNextVictim_mem (atk : Attacker) (l : List HostileRef) (cv : Option HostileRef)
    (r : HostileRef) (h : ThreatContainer.selectNextVictim atk l cv = some r) :
    r ∈ l ∨ cv = some r := by
  unfold ThreatContainer.selectNextVictim at h
  cases cv with
  | none => exact Or.inl (svNoVictim_mem atk l r h)
  | some v =>
      rcases svLoop_mem atk v _ l r h with hm | hv
      · exact Or.inl hm
      · exact Or.inr (by rw [hv])

theorem getHostileTargetM_inv (atk : Attacker) (s : ManagerState) :
    victimInv s → victimInv (getHostileTargetM atk s) := by
  intro _ t ht
  have ht2 : (ThreatContainer.selectNextVictim atk (updateContainersM atk s).reachable
      (currentVictimRef (updateContainersM atk s))).map (fun r => r.target) = some t := ht
  cases hnv : ThreatContainer.selectNextVictim atk (updateContainersM atk s).reachable
      (currentVictimRef (updateContainersM atk s)) with
  | none =>
      rw [hnv] at ht2
      cases ht2
  | some rv =>
      rw [hnv] at ht2
      have htv : rv.target = t := by simpa using ht2
      rcases selectNextVictim_mem _ _ _ _ hnv with hm | hcv
      · subst htv
        exact List.mem_map_of_mem _ hm
      · unfold currentVictimRef at hcv
        cases hv : (updateContainersM atk s).currentVictim with
        | none =>
            rw [hv] at hcv
            cases hcv
        | some vt =>
            rw [hv] at hcv
            subst htv
            exact List.mem_map_of_mem _ (getRef_some_mem hcv).1

theorem setCurrentVictimByTarget_inv (s : ManagerState) (tid : Nat) :
    victimInv s → victimInv (setCurrentVictimByTarget s tid) := by
  intro hinv
  by_cases h : s.currentVictim = some tid
  · simpa only [setCurrentVictimByTarget, if_pos h] using hinv
  · cases hg : ThreatContainer.getReferenceByTarget s.reachable tid with
    | none => simpa only [setCurrentVictimByTarget, if_neg h, hg] using hinv
    | some r =>
        simp only [setCurrentVictimByTarget, if_neg h, hg]
        intro t ht
        have ht2 : some r.target = some t := ht
        injection ht2 with ht3
        subst ht3
        exact List.mem_map_of_mem _ (getRef_some_mem hg).1

theorem clearReferencesM_inv (s : ManagerState) :
    victimInv s → victimInv (clearReferencesM s) := by
  intro _ t ht
  simp [clearReferencesM] at ht

theorem newReferenceM_inv (env : OwnerEnv) (s : ManagerState) (tid : Nat) (p : Bool) (thr : ℚ)
    (off : Bool) : victimInv s → victimInv (newReferenceM env s tid p thr off) := by
  intro hinv
  unfold newReferenceM
  have h1 : victimInv
      { s with reachable := ThreatContainer.addReference s.reachable (newHostileRef tid p) } := by
    intro t ht
    have ht2 : s.currentVictim = some t := ht
    show t ∈ (s.reachable ++ [newHostileRef tid p]).map HostileRef.target
    rw [List.map_append]
    exact List.mem_append_left _ (hinv t ht2)
  have h2 : victimInv (applyAddThreat env
      { s with reachable := ThreatContainer.addReference s.reachable (newHostileRef tid p) }
      tid thr) :=
    victimInv_of_eq_eq (applyAddThreat_victim env _ tid thr)
      (applyAddThreat_targets env _ tid thr) h1
  cases off with
  | false => exact h2
  | true => exact setOnlineOfflineState_inv _ tid false h2

theorem tick_inv (s : ManagerState) (t : Nat) :
    victimInv s → victimInv (ThreatManager.isNeedUpdateToClient s t).2 := by
  intro hinv
  unfold ThreatManager.isNeedUpdateToClient
  split
  · exact hinv
  · split
    · intro x hx
      exact hinv x hx
    · intro x hx
      exact hinv x hx

theorem getRef_mapRefList_self (l : List HostileRef) (tid : Nat) (f : HostileRef → HostileRef)
    (hft : ∀ x, (f x).target = x.target) :
    ThreatContainer.getReferenceByTarget (mapRefList l tid f) tid
      = (ThreatContainer.getReferenceByTarget l tid).map f := by
  unfold ThreatContainer.getReferenceByTarget mapRefList
  induction l with
  | nil => rfl
  | cons x t ih =>
      rw [List.map_cons]
      by_cases h : x.target = tid
      · rw [if_pos h, List.find?_cons_of_pos _ (by simp [hft, h]),
          List.find?_cons_of_pos _ (by simp [h])]
        rfl
      · rw [if_neg h, List.find?_cons_of_neg _ (by simp [h]),
          List.find?_cons_of_neg _ (by simp [h])]
        exact ih

theorem findRef_mapRefM (s : ManagerState) (tid : Nat) (f : HostileRef → HostileRef)
    (hft : ∀ x, (f x).target = x.target) :
    findRef (mapRefM s tid f) tid = (findRef s tid).map f := by
  unfold findRef mapRefM
  by_cases h : s.reachable.any (fun r => r.target == tid) = true
  · rw [if_pos h]
    rcases List.any_eq_true.mp h with ⟨x, hx, hpx⟩
    have hxt : x.target = tid := by simpa using hpx
    rcases getRef_isSome_of_mem hx hxt with ⟨r, hr⟩
    show (match ThreatContainer.getReferenceByTarget (mapRefList s.reachable tid f) tid with
      | some r => some r
      | none => ThreatContainer.getReferenceByTarget s.unreachable tid) = _
    rw [getRef_mapRefList_self s.reachable tid f hft, hr]
    rfl
  · rw [if_neg h]
    have hnone : ThreatContainer.getReferenceByTarget s.reachable tid = none := by
      unfold ThreatContainer.getReferenceByTarget
      rw [List.find?_eq_none]
      intro x hx hpx
      exact h (List.any_eq_true.mpr ⟨x, hx, hpx⟩)
    show (match ThreatContainer.getReferenceByTarget s.reachable tid with
      | some r => some r
      | none => ThreatContainer.getReferenceByTarget (mapRefList s.unreachable tid f) tid) = _
    rw [hnone, getRef_mapRefList_self s.unreachable tid f hft]

/-- C8: (1) every state-mutating operation of the manager preserves the
invariant that a non-null current victim names a member of the reachable
set; (2) when a reference that is the current victim transitions to offline,
the ONLINE_STATUS handler clears the current victim, marks the set dirty,
and moves the reference from the reachable set to the unreachable set. -/
theorem currentVictim_invariant_and_offline_transition :
    (∀ (env : OwnerEnv) (atk : Attacker) (s s2 : ManagerState),
        MStep env atk s s2 → victimInv s → victimInv s2) ∧
    (∀ (s : ManagerState) (tid : Nat) (r : HostileRef),
        findRef s tid = some r → r.online = true → s.currentVictim = some tid →
        (setOnlineOfflineState s tid false).currentVictim = none ∧
        (setOnlineOfflineState s tid false).dirty = true ∧
        tid ∉ (setOnlineOfflineState s tid false).reachable.map HostileRef.target ∧
        tid ∈ (setOnlineOfflineState s tid false).unreachable.map HostileRef.target) := by
  constructor
  · intro env atk s s2 hstep hinv
    cases hstep with
    | addThreatStep tid m =>
        exact victimInv_of_eq_eq (applyAddThreat_victim env s tid m)
          (applyAddThreat_targets env s tid m) hinv
    | setOnlineStep tid b => exact setOnlineOfflineState_inv s tid b hinv
    | removeStep tid => exact processRemoveEvent_inv s tid hinv
    | setHostileStep tid st => exact setHostileStateM_inv env s tid st hinv
    | modifyPercentStep tid pct => exact modifyThreatPercent_inv env s tid pct hinv
    | modifyAllStep pct => exact modifyAllThreatPercent_inv env s pct hinv
    | updateStep => exact updateContainersM_inv atk s hinv
    | selectStep => exact getHostileTargetM_inv atk s hinv
    | setVictimStep tid => exact setCurrentVictimByTarget_inv s tid hinv
    | clearStep => exact clearReferencesM_inv s hinv
    | newRefStep tid p thr off hfresh => exact newReferenceM_inv env s tid p thr off hinv
    | tickStep t => exact tick_inv s t hinv
  · intro s tid r hf honl hvic
    have hne : ¬(r.online = false) := by simp [honl]
    simp only [setOnlineOfflineState, hf, if_neg hne]
    have hfr : findRef (mapRefM s tid (fun x => { x with online := false })) tid
        = some { r with online := false } := by
      rw [findRef_mapRefM s tid (fun x => { x with online := false }) (fun x => rfl), hf]
      rfl
    have hvic2 : (mapRefM s tid (fun x => { x with online := false })).currentVictim
        = some tid := by
      rw [mapRefM_victim]
      exact hvic
    simp only [processOnlineEvent, hfr, if_pos rfl, if_pos hvic2]
    refine ⟨rfl, rfl, not_mem_removeRef _ tid, ?_⟩
    show tid ∈ ((mapRefM s tid (fun x => { x with online := false })).unreachable
        ++ [{ r with online := false }]).map HostileRef.target
    rw [List.map_append]
    refine List.mem_append_right _ ?_
    simp [findRef_target hf]

theorem currentVictim_invariant_and_offline_transition_witness :
    victimInv (clearReferencesM oneRefState) ∧
    (setOnlineOfflineState victimRefState 1 false).currentVictim = none :=
  ⟨currentVictim_invariant_and_offline_transition.1 envW atkW oneRefState _
      (MStep.clearStep oneRefState)
      (by
        intro t ht
        simp [oneRefState, emptyMgrState] at ht),
   (currentVictim_invariant_and_offline_transition.2 victimRefState 1 refW rfl rfl rfl).1⟩
